import Mathlib

/-!
Verification of the TA612C WebSocket-serial bridge (src/bridge.py).

The development shallowly embeds the frame decoder `parse_ta612c_frames`
(bridge.py lines 201-259), its per-channel reading extraction (lines 246-257),
and the socket-to-serial pump's per-message behaviour `ws_to_serial`
(lines 307-327).

Byte buffers are `List Nat` (Python `bytes`: every element is in 0..255;
the decoder's behaviour is defined for arbitrary naturals and none of the
decoding theorems need the range bound).  Temperatures are `ℚ`: Python
computes `raw / 10.0` in binary floating point, but every comparison the
code performs (`-300 <= temp <= 2000`) and every value the claims mention
(10.0, -5.0, 300.0, 2000.0) is exact in both ℚ and IEEE double for raw
int16 inputs, so the rational model agrees with the float code on all
observable behaviour treated here.  A reading is the 4-tuple the code
builds, with `none` for the out-of-range ("absent channel") sentinel.
-/

/-- One decoded reading: four optional channel temperatures, as built by
`temps.append(temp if -300 <= temp <= 2000 else None)` and `tuple(temps)`. -/
abbrev Reading := Option ℚ × Option ℚ × Option ℚ × Option ℚ

instance : DecidableEq Reading := instDecidableEqProd

instance : DecidableEq (List Reading × List Nat) := instDecidableEqProd

/-- Embeds `struct.unpack_from("<h", payload, off)`: the 16-bit little-endian
two's-complement integer formed from bytes `b0` (low) and `b1` (high). -/
def int16LE (b0 b1 : Nat) : Int :=
  if b0 + 256 * b1 < 32768 then (b0 + 256 * b1 : Int) else (b0 + 256 * b1 : Int) - 65536

/-- Channel `ch` of the real-time payload (bridge.py lines 252-256):
`raw = struct.unpack_from("<h", payload, ch * 2)[0]; temp = raw / 10.0;`
kept when `-300 <= temp <= 2000`, else `None`. -/
def channelVal (payload : List Nat) (ch : Nat) : Option ℚ :=
  let temp : ℚ := (int16LE (payload.getD (2 * ch) 0) (payload.getD (2 * ch + 1) 0) : ℚ) / 10
  if -300 ≤ temp ∧ temp ≤ 2000 then some temp else none

/-- The 4-channel extraction loop `for ch in range(4)` (bridge.py lines 251-257). -/
def extractReading (payload : List Nat) : Reading :=
  (channelVal payload 0, channelVal payload 1, channelVal payload 2, channelVal payload 3)

/-- The header scan (bridge.py lines 213-217): index of the first `i` with
`buf[i] == 0x55 and buf[i+1] == 0xAA`, scanning `i in range(len(buf) - 1)`. -/
def findSync : List Nat → Option Nat
  | [] => none
  | [_] => none
  | a :: b :: rest =>
    if a = 0x55 ∧ b = 0xAA then some 0 else (findSync (b :: rest)).map (· + 1)

/-- The `while True` loop of `parse_ta612c_frames` (bridge.py lines 211-258),
with the accumulating `readings` list made explicit.  Each iteration mirrors
the source: find the header, trim noise, check that the length byte and the
whole frame are present, slice the frame off the buffer, validate the
checksum, and extract a reading from command-0x01 frames whose payload has
at least 8 bytes. -/
def parseLoop (buf : List Nat) (readings : List Reading) : List Reading × List Nat :=
  match findSync buf with
  | none =>
    -- keep last byte in case it's the start of a header
    (readings, if 1 < buf.length then buf.drop (buf.length - 1) else buf)
  | some idx =>
    -- discard bytes before header; need header(2) + cmd(1) + length(1)
    if h4 : (buf.drop idx).length < 4 then (readings, buf.drop idx)
    else
      -- frame_size = 2 + 1 + length, where length = buf[3]
      if hsize : (buf.drop idx).length < 2 + 1 + (buf.drop idx).getD 3 0 then
        (readings, buf.drop idx)
      else
        let frame := (buf.drop idx).take (2 + 1 + (buf.drop idx).getD 3 0)
        let rest := (buf.drop idx).drop (2 + 1 + (buf.drop idx).getD 3 0)
        -- checksum: low byte of sum of all preceding bytes
        if frame.dropLast.sum % 256 ≠ frame.getLastD 0 then
          parseLoop rest readings
        else if frame.getD 2 0 = 0x01 then
          -- real-time data: payload = frame[4:-1]
          if 8 ≤ ((frame.drop 4).dropLast).length then
            parseLoop rest (readings ++ [extractReading ((frame.drop 4).dropLast)])
          else
            parseLoop rest readings
        else
          parseLoop rest readings
termination_by buf.length
decreasing_by
  all_goals
    simp only [List.length_drop] at *
    omega

/-- Embeds `parse_ta612c_frames(buf)` (bridge.py lines 201-259): readings extracted
from all validated command-0x01 frames, plus the unconsumed remainder. -/
def parse_ta612c_frames (buf : List Nat) : List Reading × List Nat :=
  parseLoop buf []

/-- Candidate frame shape: what one iteration of the loop slices off when the
buffer starts with the sync marker — the length byte at offset 3 declares
exactly this many remaining bytes (`frame_size = 2 + 1 + length`). -/
def IsCandidateFrame (c : List Nat) : Prop :=
  4 ≤ c.length ∧ c.getD 0 0 = 0x55 ∧ c.getD 1 0 = 0xAA ∧ c.getD 3 0 + 3 = c.length

/-- A well-formed frame: candidate shape plus a valid checksum (the last byte
equals the low byte of the sum of all preceding bytes). -/
def IsWellFormedFrame (f : List Nat) : Prop :=
  IsCandidateFrame f ∧ f.dropLast.sum % 256 = f.getLastD 0

instance (c : List Nat) : Decidable (IsCandidateFrame c) := by
  unfold IsCandidateFrame; infer_instance

instance (f : List Nat) : Decidable (IsWellFormedFrame f) := by
  unfold IsWellFormedFrame IsCandidateFrame; infer_instance

/-- Buffers on which the decoder makes no progress and which it returns
unchanged: at most one byte, or a sync-prefixed strict prefix of a frame
(header incomplete, or fewer bytes than `2 + 1 + length_byte`). -/
def IncompleteTail (t : List Nat) : Prop :=
  t.length ≤ 1 ∨
    (t.getD 0 0 = 0x55 ∧ t.getD 1 0 = 0xAA ∧
      (t.length < 4 ∨ t.length < 2 + 1 + t.getD 3 0))

instance (t : List Nat) : Decidable (IncompleteTail t) := by
  unfold IncompleteTail; infer_instance

/-- What one sliced candidate frame contributes to the readings list: one
reading iff its checksum validates, its command byte is 0x01 and its payload
(frame minus header, length byte and checksum) has at least 8 bytes. -/
def emittedBy (f : List Nat) : List Reading :=
  if f.dropLast.sum % 256 = f.getLastD 0 ∧ f.getD 2 0 = 0x01 ∧
      8 ≤ ((f.drop 4).dropLast).length then
    [extractReading ((f.drop 4).dropLast)]
  else []

/-- Checked form of `struct.unpack_from("<h", payload, 2 * ch)`, with the bounds check made
explicit: `none` models the `struct.error` Python would raise when fewer
than `2 * ch + 2` bytes are available. -/
def channelValC (payload : List Nat) (ch : Nat) : Option (Option ℚ) :=
  match payload[2 * ch]?, payload[2 * ch + 1]? with
  | some b0, some b1 =>
    some (let temp : ℚ := (int16LE b0 b1 : ℚ) / 10
          if -300 ≤ temp ∧ temp ≤ 2000 then some temp else none)
  | _, _ => none

/-- The extraction loop with every byte access checked. -/
def extractReadingC (payload : List Nat) : Option Reading :=
  match channelValC payload 0, channelValC payload 1,
      channelValC payload 2, channelValC payload 3 with
  | some c0, some c1, some c2, some c3 => some (c0, c1, c2, c3)
  | _, _, _, _ => none

/-- The decoder loop again, with (a) an explicit fuel bound on the number of
iterations and (b) every Python byte access modelled as a checked lookup, so
that a `some` result certifies both termination within the fuel and absence
of any index error.  Fuel `buf.length / 3 + 1` always suffices because every
iteration that does not exit the loop consumes a sliced frame of
`frame_size = 2 + 1 + length_byte ≥ 3` bytes. -/
def parseLoopC : Nat → List Nat → List Reading → Option (List Reading × List Nat)
  | 0, _, _ => none
  | fuel + 1, buf, readings =>
    match findSync buf with
    | none => some (readings, if 1 < buf.length then buf.drop (buf.length - 1) else buf)
    | some idx =>
      if (buf.drop idx).length < 4 then some (readings, buf.drop idx)
      else
        match (buf.drop idx)[3]? with
        | none => none
        | some len =>
          if (buf.drop idx).length < 2 + 1 + len then some (readings, buf.drop idx)
          else
            match ((buf.drop idx).take (2 + 1 + len)).getLast? with
            | none => none
            | some last =>
              if ((buf.drop idx).take (2 + 1 + len)).dropLast.sum % 256 ≠ last then
                parseLoopC fuel ((buf.drop idx).drop (2 + 1 + len)) readings
              else
                match ((buf.drop idx).take (2 + 1 + len))[2]? with
                | none => none
                | some cmd =>
                  if cmd = 0x01 then
                    if 8 ≤ ((((buf.drop idx).take (2 + 1 + len)).drop 4).dropLast).length then
                      match extractReadingC ((((buf.drop idx).take (2 + 1 + len)).drop 4).dropLast) with
                      | none => none
                      | some reading =>
                        parseLoopC fuel ((buf.drop idx).drop (2 + 1 + len)) (readings ++ [reading])
                    else parseLoopC fuel ((buf.drop idx).drop (2 + 1 + len)) readings
                  else parseLoopC fuel ((buf.drop idx).drop (2 + 1 + len)) readings

/-- Checked rendition of `parse_ta612c_frames`, with the fuel bound spelt out. -/
def parse_ta612c_framesC (buf : List Nat) : Option (List Reading × List Nat) :=
  parseLoopC (buf.length / 3 + 1) buf []

/-- From the spec's words (section 4.2, Reading Extractor): "read a 16-bit
little-endian two's-complement integer at byte offset 2*index; divide by 10
... If the result lies outside [-300, 2000], the channel value is absent."
Stated independently of the source embedding, for comparison with it. -/
def specChannel (payload : List Nat) (i : Nat) : Option ℚ :=
  let raw : Int :=
    if payload.getD (2 * i) 0 + 256 * payload.getD (2 * i + 1) 0 < 2 ^ 15 then
      (payload.getD (2 * i) 0 + 256 * payload.getD (2 * i + 1) 0 : Int)
    else
      (payload.getD (2 * i) 0 + 256 * payload.getD (2 * i + 1) 0 : Int) - 2 ^ 16
  let t : ℚ := (raw : ℚ) / 10
  if -300 ≤ t ∧ t ≤ 2000 then some t else none

/- ── the socket-to-serial pump, per inbound message ─────────────────── -/

/-- An inbound WebSocket message: the `websockets` library delivers either a
binary frame (`bytes`) or a text frame (`str`). -/
inductive WSMessage
  | bin (b : List Nat)
  | text (s : String)

/-- What one loop iteration of `ws_to_serial` does to the serial handle. -/
inductive SerialEffect
  | write (bs : List Nat)
  | ignored
  | raised
  deriving DecidableEq

/-- Embeds `message.encode("ascii")`: one byte per character for code points below
128; `none` models the `UnicodeEncodeError` raised otherwise. -/
def encodeAscii (s : String) : Option (List Nat) :=
  if s.data.all (fun c => c.toNat < 128) then some (s.data.map Char.toNat) else none

/-- One iteration of `async for message in ws` in `ws_to_serial` (bridge.py
lines 310-325): a non-empty binary message is written verbatim
(`if isinstance(message, bytes) and message: ser.write(message)`); a text
message is written ASCII-encoded (`ser.write(message.encode("ascii"))`),
which raises for non-ASCII text; an empty binary message matches neither
branch and is ignored.  (Serial-write failure, which terminates the pump,
is outside this per-message model.) -/
def ws_to_serial_step : WSMessage → SerialEffect
  | .bin b => if b ≠ [] then .write b else .ignored
  | .text s =>
    match encodeAscii s with
    | some bs => .write bs
    | none => .raised

/- ── basic facts about the header scan ──────────────────────────────── -/

theorem findSync_of_short (l : List Nat) (h : l.length ≤ 1) : findSync l = none := by
  match l with
  | [] => rfl
  | [_] => rfl
  | _ :: _ :: _ => simp at h

theorem findSync_cons2 (l : List Nat) : findSync (0x55 :: 0xAA :: l) = some 0 := by
  simp [findSync]

theorem findSync_drop (l : List Nat) (idx : Nat) (h : findSync l = some idx) :
    ∃ m, l.drop idx = 0x55 :: 0xAA :: m := by
  induction l generalizing idx with
  | nil => simp [findSync] at h
  | cons a t ih =>
    match t with
    | [] => simp [findSync] at h
    | b :: m =>
      rw [findSync] at h
      by_cases hab : a = 0x55 ∧ b = 0xAA
      · rw [if_pos hab] at h
        obtain ⟨rfl⟩ := Option.some.inj h
        exact ⟨m, by rw [hab.1, hab.2]; rfl⟩
      · rw [if_neg hab] at h
        obtain ⟨j, hj, rfl⟩ := Option.map_eq_some'.mp h
        obtain ⟨m', hm'⟩ := ih j hj
        exact ⟨m', hm'⟩

theorem findSync_of_no_sync (l : List Nat)
    (h : ∀ i, i + 1 < l.length → ¬(l.getD i 0 = 0x55 ∧ l.getD (i + 1) 0 = 0xAA)) :
    findSync l = none := by
  induction l with
  | nil => rfl
  | cons a t ih =>
    match t with
    | [] => rfl
    | b :: m =>
      rw [findSync]
      have h0 := h 0 (by simp)
      rw [if_neg (by simpa using h0)]
      rw [ih fun i hi => by simpa using h (i + 1) (by simpa using Nat.succ_lt_succ hi)]
      rfl

/- ── unfolding lemmas for the decoder loop ──────────────────────────── -/

theorem parseLoop_none (buf : List Nat) (r : List Reading) (h : findSync buf = none) :
    parseLoop buf r = (r, if 1 < buf.length then buf.drop (buf.length - 1) else buf) := by
  unfold parseLoop
  rw [h]

theorem parseLoop_short (buf : List Nat) (r : List Reading) (idx : Nat)
    (h : findSync buf = some idx) (h4 : (buf.drop idx).length < 4) :
    parseLoop buf r = (r, buf.drop idx) := by
  unfold parseLoop
  rw [h]
  simp only [dif_pos h4]

theorem parseLoop_incomplete_frame (buf : List Nat) (r : List Reading) (idx : Nat)
    (h : findSync buf = some idx) (h4 : ¬ (buf.drop idx).length < 4)
    (hsize : (buf.drop idx).length < 2 + 1 + (buf.drop idx).getD 3 0) :
    parseLoop buf r = (r, buf.drop idx) := by
  unfold parseLoop
  rw [h]
  simp only [dif_neg h4, dif_pos hsize]

theorem parseLoop_slice (buf : List Nat) (r : List Reading) (idx : Nat)
    (h : findSync buf = some idx) (h4 : ¬ (buf.drop idx).length < 4)
    (hsize : ¬ (buf.drop idx).length < 2 + 1 + (buf.drop idx).getD 3 0) :
    parseLoop buf r =
      parseLoop ((buf.drop idx).drop (2 + 1 + (buf.drop idx).getD 3 0))
        (r ++ emittedBy ((buf.drop idx).take (2 + 1 + (buf.drop idx).getD 3 0))) := by
  conv_lhs => unfold parseLoop
  rw [h]
  simp only [dif_neg h4, dif_neg hsize]
  set frame := (buf.drop idx).take (2 + 1 + (buf.drop idx).getD 3 0) with hframe
  by_cases hck : frame.dropLast.sum % 256 = frame.getLastD 0
  · rw [if_neg (by simpa using hck)]
    by_cases hcmd : frame.getD 2 0 = 0x01
    · rw [if_pos hcmd]
      by_cases hpl : 8 ≤ ((frame.drop 4).dropLast).length
      · rw [if_pos hpl]
        rw [emittedBy, if_pos ⟨hck, hcmd, hpl⟩]
      · rw [if_neg hpl]
        rw [emittedBy, if_neg (by tauto), List.append_nil]
    · rw [if_neg hcmd]
      rw [emittedBy, if_neg (by tauto), List.append_nil]
  · rw [if_pos (by simpa using hck)]
    rw [emittedBy, if_neg (by tauto), List.append_nil]

/- ── the loop's behaviour on one leading candidate frame ────────────── -/

theorem candidate_decomp (c : List Nat) (hc : IsCandidateFrame c) :
    ∃ cm tl, c = 0x55 :: 0xAA :: cm :: (tl.length + 1) :: tl := by
  obtain ⟨hlen, h0, h1, h3⟩ := hc
  match c with
  | [] => simp at hlen
  | [_] => simp at hlen
  | [_, _] => simp at hlen
  | [_, _, _] => simp at hlen
  | a :: b :: cm :: lb :: tl =>
    refine ⟨cm, tl, ?_⟩
    have ha : a = 0x55 := h0
    have hb : b = 0xAA := h1
    have hlb : lb = tl.length + 1 := by
      have : lb + 3 = tl.length + 4 := by simpa [List.getD] using h3
      omega
    rw [ha, hb, hlb]

theorem parseLoop_candidate (c s : List Nat) (r : List Reading) (hc : IsCandidateFrame c) :
    parseLoop (c ++ s) r = parseLoop s (r ++ emittedBy c) := by
  obtain ⟨cm, tl, rfl⟩ := candidate_decomp c hc
  have hfind : findSync ((0x55 :: 0xAA :: cm :: (tl.length + 1) :: tl) ++ s) = some 0 := by
    simp only [List.cons_append]
    exact findSync_cons2 _
  have hlen4 : ¬ (((0x55 :: 0xAA :: cm :: (tl.length + 1) :: tl) ++ s).drop 0).length < 4 := by
    simp
  have hsz : ¬ (((0x55 :: 0xAA :: cm :: (tl.length + 1) :: tl) ++ s).drop 0).length <
      2 + 1 + (((0x55 :: 0xAA :: cm :: (tl.length + 1) :: tl) ++ s).drop 0).getD 3 0 := by
    show ¬ (((0x55 :: 0xAA :: cm :: (tl.length + 1) :: tl) ++ s).drop 0).length <
      2 + 1 + (tl.length + 1)
    simp
    omega
  rw [parseLoop_slice _ r 0 hfind hlen4 hsz]
  have htake : (((0x55 :: 0xAA :: cm :: (tl.length + 1) :: tl) ++ s).drop 0).take
      (2 + 1 + (((0x55 :: 0xAA :: cm :: (tl.length + 1) :: tl) ++ s).drop 0).getD 3 0) =
      0x55 :: 0xAA :: cm :: (tl.length + 1) :: tl := by
    show ((0x55 :: 0xAA :: cm :: (tl.length + 1) :: tl) ++ s).take (2 + 1 + (tl.length + 1)) = _
    exact List.take_left' (by simp; omega)
  have hdrop : (((0x55 :: 0xAA :: cm :: (tl.length + 1) :: tl) ++ s).drop 0).drop
      (2 + 1 + (((0x55 :: 0xAA :: cm :: (tl.length + 1) :: tl) ++ s).drop 0).getD 3 0) = s := by
    show ((0x55 :: 0xAA :: cm :: (tl.length + 1) :: tl) ++ s).drop (2 + 1 + (tl.length + 1)) = _
    exact List.drop_left' (by simp; omega)
  rw [htake, hdrop]

theorem parseLoop_incomplete_tail (t : List Nat) (r : List Reading) (h : IncompleteTail t) :
    parseLoop t r = (r, t) := by
  rcases h with hlen | ⟨h0, h1, hrest⟩
  · rw [parseLoop_none _ _ (findSync_of_short _ hlen), if_neg (by omega)]
  · obtain ⟨m, rfl⟩ : ∃ m, t = 0x55 :: 0xAA :: m := by
      match t with
      | [] => exact absurd h0 (by simp [List.getD])
      | [a] => exact absurd h1 (by simp [List.getD])
      | a :: b :: m =>
        have ha : a = 0x55 := h0
        have hb : b = 0xAA := h1
        exact ⟨m, by rw [ha, hb]⟩
    have hfind := findSync_cons2 m
    rcases hrest with h4 | hsz
    · rw [parseLoop_short _ r 0 hfind (by simpa using h4)]
      rfl
    · by_cases h4 : (0x55 :: 0xAA :: m).length < 4
      · rw [parseLoop_short _ r 0 hfind (by simpa using h4)]
        rfl
      · rw [parseLoop_incomplete_frame _ r 0 hfind (by simpa using h4) (by simpa using hsz)]
        rfl

/- ── checked, fuel-bounded rendition of the same loop ───────────────── -/

theorem getElem?_some_getD (l : List Nat) (n d : Nat) (h : n < l.length) :
    l[n]? = some (l.getD n d) := by
  rw [List.getElem?_eq_getElem h]
  simp [List.getD_eq_getElem?_getD, List.getElem?_eq_getElem h]

theorem getLast?_some_getLastD (l : List Nat) (h : l ≠ []) :
    l.getLast? = some (l.getLastD 0) := by
  rcases l.eq_nil_or_concat with rfl | ⟨l2, a, rfl⟩
  · exact absurd rfl h
  · simp [List.getLast?_concat, List.getLastD_concat]

theorem channelValC_of_lt (payload : List Nat) (ch : Nat) (h : 2 * ch + 1 < payload.length) :
    channelValC payload ch = some (channelVal payload ch) := by
  rw [channelValC, getElem?_some_getD payload (2 * ch) 0 (by omega),
    getElem?_some_getD payload (2 * ch + 1) 0 h]
  rfl

theorem extractReadingC_of_long (payload : List Nat) (h : 8 ≤ payload.length) :
    extractReadingC payload = some (extractReading payload) := by
  rw [extractReadingC, channelValC_of_lt payload 0 (by omega),
    channelValC_of_lt payload 1 (by omega), channelValC_of_lt payload 2 (by omega),
    channelValC_of_lt payload 3 (by omega)]
  rfl

theorem parseLoopC_eq (fuel : Nat) :
    ∀ (buf : List Nat) (r : List Reading), buf.length / 3 < fuel →
      parseLoopC fuel buf r = some (parseLoop buf r) := by
  induction fuel with
  | zero => intro buf r h; omega
  | succ n ih =>
    intro buf r h
    cases hfind : findSync buf with
    | none =>
      rw [parseLoopC, hfind, parseLoop_none _ _ hfind]
    | some idx =>
      rw [parseLoopC, hfind]
      dsimp only
      by_cases h4 : (buf.drop idx).length < 4
      · rw [if_pos h4, parseLoop_short _ _ _ hfind h4]
      · rw [if_neg h4, getElem?_some_getD (buf.drop idx) 3 0 (by omega)]
        dsimp only
        by_cases hsz : (buf.drop idx).length < 2 + 1 + (buf.drop idx).getD 3 0
        · rw [if_pos hsz, parseLoop_incomplete_frame _ _ _ hfind h4 hsz]
        · rw [if_neg hsz]
          have hfr : ((buf.drop idx).take (2 + 1 + (buf.drop idx).getD 3 0)) ≠ [] := by
            apply List.ne_nil_of_length_pos
            rw [List.length_take]
            omega
          rw [getLast?_some_getLastD _ hfr]
          dsimp only
          have hrec : ((buf.drop idx).drop (2 + 1 + (buf.drop idx).getD 3 0)).length / 3 < n := by
            simp only [List.length_drop] at *
            omega
          rw [parseLoop_slice _ r idx hfind h4 hsz]
          by_cases hck : ((buf.drop idx).take (2 + 1 + (buf.drop idx).getD 3 0)).dropLast.sum % 256 ≠
              ((buf.drop idx).take (2 + 1 + (buf.drop idx).getD 3 0)).getLastD 0
          · rw [if_pos hck, ih _ _ hrec, emittedBy, if_neg (by tauto), List.append_nil]
          · rw [if_neg hck,
              getElem?_some_getD ((buf.drop idx).take (2 + 1 + (buf.drop idx).getD 3 0)) 2 0
                (by rw [List.length_take]; omega)]
            dsimp only
            push_neg at hck
            by_cases hcmd : ((buf.drop idx).take (2 + 1 + (buf.drop idx).getD 3 0)).getD 2 0 = 0x01
            · rw [if_pos hcmd]
              by_cases hpl : 8 ≤ ((((buf.drop idx).take (2 + 1 + (buf.drop idx).getD 3 0)).drop 4).dropLast).length
              · rw [if_pos hpl, extractReadingC_of_long _ hpl]
                dsimp only
                rw [ih _ _ hrec, emittedBy, if_pos ⟨hck, hcmd, hpl⟩]
              · rw [if_neg hpl, ih _ _ hrec, emittedBy, if_neg (by tauto), List.append_nil]
            · rw [if_neg hcmd, ih _ _ hrec, emittedBy, if_neg (by tauto), List.append_nil]

/-- Evaluation bridge: a concrete run of the checked loop determines the
value of `parse_ta612c_frames`. -/
theorem parse_eval (buf : List Nat) (x : List Reading × List Nat)
    (h : parseLoopC (buf.length / 3 + 1) buf [] = some x) :
    parse_ta612c_frames buf = x := by
  have h2 := parseLoopC_eq (buf.length / 3 + 1) buf [] (by omega)
  rw [h] at h2
  exact (Option.some.inj h2).symm

/- ── remaining helper lemmas ────────────────────────────────────────── -/

theorem getD_append_lt (l₁ l₂ : List Nat) (n d : Nat) (h : n < l₁.length) :
    (l₁ ++ l₂).getD n d = l₁.getD n d := by
  simp [List.getD_eq_getElem?_getD, List.getElem?_append_left h]

theorem channelVal_eq_specChannel (payload : List Nat) (i : Nat) :
    channelVal payload i = specChannel payload i := by
  simp only [channelVal, specChannel, int16LE]
  norm_num

/-- Structural invariant of the loop: the returned remainder is a suffix of
the buffer the loop was started on, and it is an `IncompleteTail`. -/
theorem parseLoop_tail_invariant (n : Nat) :
    ∀ (buf : List Nat) (r : List Reading), buf.length ≤ n →
      (parseLoop buf r).2 <:+ buf ∧ IncompleteTail (parseLoop buf r).2 := by
  induction n with
  | zero =>
    intro buf r h
    have hnil : buf = [] := List.eq_nil_of_length_eq_zero (by omega)
    subst hnil
    rw [parseLoop_none [] r rfl]
    exact ⟨List.suffix_refl _, Or.inl (by simp)⟩
  | succ n ih =>
    intro buf r h
    cases hfind : findSync buf with
    | none =>
      rw [parseLoop_none _ _ hfind]
      by_cases h1 : 1 < buf.length
      · rw [if_pos h1]
        refine ⟨List.drop_suffix _ _, Or.inl ?_⟩
        rw [List.length_drop]
        omega
      · rw [if_neg h1]
        refine ⟨List.suffix_refl _, Or.inl ?_⟩
        show buf.length ≤ 1
        omega
    | some idx =>
      obtain ⟨m, hm⟩ := findSync_drop buf idx hfind
      by_cases h4 : (buf.drop idx).length < 4
      · rw [parseLoop_short _ _ _ hfind h4]
        refine ⟨List.drop_suffix _ _, Or.inr ⟨?_, ?_, Or.inl h4⟩⟩
        · rw [hm]; rfl
        · rw [hm]; rfl
      · by_cases hsz : (buf.drop idx).length < 2 + 1 + (buf.drop idx).getD 3 0
        · rw [parseLoop_incomplete_frame _ _ _ hfind h4 hsz]
          refine ⟨List.drop_suffix _ _, Or.inr ⟨?_, ?_, Or.inr hsz⟩⟩
          · rw [hm]; rfl
          · rw [hm]; rfl
        · rw [parseLoop_slice _ r idx hfind h4 hsz]
          have hlen : ((buf.drop idx).drop (2 + 1 + (buf.drop idx).getD 3 0)).length ≤ n := by
            simp only [List.length_drop] at *
            omega
          obtain ⟨hsuf, hinc⟩ := ih _ (r ++ emittedBy ((buf.drop idx).take (2 + 1 + (buf.drop idx).getD 3 0))) hlen
          exact ⟨hsuf.trans ((List.drop_suffix _ _).trans (List.drop_suffix _ _)), hinc⟩

/-- A strict front chunk of a well-formed frame decodes to no reading, with
the whole chunk kept as remainder. -/
theorem parse_front_chunk (f c1 c2 : List Nat) (hwf : IsWellFormedFrame f)
    (heq : f = c1 ++ c2) (hne : c2 ≠ []) : parse_ta612c_frames c1 = ([], c1) := by
  obtain ⟨⟨hlen, h0, h1, h3⟩, hck⟩ := hwf
  subst heq
  by_cases hshort : c1.length ≤ 1
  · rw [parse_ta612c_frames, parseLoop_none _ _ (findSync_of_short _ hshort), if_neg (by omega)]
  · obtain ⟨a, b, m, rfl⟩ : ∃ a b m, c1 = a :: b :: m := by
      match c1 with
      | [] => simp at hshort
      | [x] => simp at hshort
      | a :: b :: m => exact ⟨a, b, m, rfl⟩
    have ha : a = 0x55 := h0
    have hb : b = 0xAA := h1
    subst ha hb
    have hfind := findSync_cons2 m
    by_cases h4 : (0x55 :: 0xAA :: m).length < 4
    · rw [parse_ta612c_frames, parseLoop_short _ _ 0 hfind h4]
      rfl
    · have hgd : ((0x55 :: 0xAA :: m) ++ c2).getD 3 0 = (0x55 :: 0xAA :: m).getD 3 0 :=
        getD_append_lt _ _ 3 0 (by simp at h4 ⊢; omega)
      have hsz : (0x55 :: 0xAA :: m).length < 2 + 1 + (0x55 :: 0xAA :: m).getD 3 0 := by
        rw [← hgd]
        have hc2 : 0 < c2.length := List.length_pos.mpr hne
        rw [List.length_append] at h3
        omega
      rw [parse_ta612c_frames, parseLoop_incomplete_frame _ _ 0 hfind h4 hsz]
      rfl

/- ── the claims ─────────────────────────────────────────────────────── -/

/-- C1 (amended): for a buffer that is one well-formed command-0x01 frame
with at least 8 payload bytes followed by trailing bytes that are at most one
byte long or a sync-prefixed strict prefix of a next frame,
`parse_ta612c_frames` returns exactly one decoded reading and a remainder
equal to the trailing bytes. -/
theorem claim_C1 (f t : List Nat) (hwf : IsWellFormedFrame f) (hcmd : f.getD 2 0 = 0x01)
    (hpl : 8 ≤ ((f.drop 4).dropLast).length) (ht : IncompleteTail t) :
    parse_ta612c_frames (f ++ t) = ([extractReading ((f.drop 4).dropLast)], t) := by
  obtain ⟨hc, hck⟩ := hwf
  rw [parse_ta612c_frames, parseLoop_candidate f t [] hc, parseLoop_incomplete_tail t _ ht,
    emittedBy, if_pos ⟨hck, hcmd, hpl⟩, List.nil_append]

/-- C1 counterexample to the claim as stated: the trailing bytes
`[0x00, 0x00]` are shorter than any complete frame (a frame has at least 3
bytes), yet the decode of a well-formed frame followed by them returns zero
readings (the frame's command byte 0x02 is not 0x01) and remainder `[0x00]`,
not the trailing bytes `[0x00, 0x00]`. -/
theorem claim_C1_counterexample :
    IsWellFormedFrame [0x55, 0xAA, 0x02, 0x03, 0x07, 0x0B] ∧
    parse_ta612c_frames ([0x55, 0xAA, 0x02, 0x03, 0x07, 0x0B] ++ [0x00, 0x00]) = ([], [0x00]) :=
  ⟨by decide, parse_eval _ _ (by decide)⟩

/-- C1 witness: a concrete well-formed command-0x01 frame followed by the
single byte 0x55 (a possible first half of the next sync marker). -/
theorem claim_C1_witness :
    IsWellFormedFrame [0x55, 0xAA, 0x01, 0x0A, 100, 0, 206, 255, 184, 11, 96, 240, 78] ∧
    IncompleteTail [0x55] ∧
    parse_ta612c_frames ([0x55, 0xAA, 0x01, 0x0A, 100, 0, 206, 255, 184, 11, 96, 240, 78] ++ [0x55]) =
      ([extractReading [100, 0, 206, 255, 184, 11, 96, 240]], [0x55]) :=
  ⟨by decide, by decide, claim_C1 _ _ (by decide) (by decide) (by decide) (by decide)⟩

/-- C2 counterexample to the claim as stated: the 8-byte payload encoding the
little-endian int16 values 100, -50, 3000, -4000 does NOT extract to
`(10.0, -5.0, absent, absent)` — raw 3000 scales to 300.0, which lies inside
the inclusive range [-300, 2000], so channel 3 is present, not absent. -/
theorem claim_C2_counterexample :
    extractReading [100, 0, 206, 255, 184, 11, 96, 240] ≠ (some 10, some (-5), none, none) := by
  norm_num [extractReading, channelVal, int16LE, List.getD]
  exact Option.some_ne_none _

/-- C2 (amended): the payload encoding 100, -50, 3000, -4000 extracts to
`(10.0, -5.0, 300.0, absent)`; and the inclusive boundary is as described:
raw 20000 scales to 2000.0 and is in range, raw 20001 is out of range. -/
theorem claim_C2 :
    extractReading [100, 0, 206, 255, 184, 11, 96, 240] = (some 10, some (-5), some 300, none) ∧
    extractReading [32, 78, 33, 78, 0, 0, 0, 0] = (some 2000, none, some 0, some 0) := by
  constructor <;> norm_num [extractReading, channelVal, int16LE, List.getD]

/-- C3: for every well-formed command-0x01 frame with at least 8 payload
bytes, each of the four channels of the decoded reading is exactly the
spec-side formula: the little-endian two's-complement 16-bit integer at
payload offset 2*index, divided by 10, kept iff it lies in the inclusive
range [-300, 2000] and absent otherwise.  No error is raised (the decode
is total and returns a value). -/
theorem claim_C3 (f : List Nat) (hwf : IsWellFormedFrame f) (hcmd : f.getD 2 0 = 0x01)
    (hpl : 8 ≤ ((f.drop 4).dropLast).length) :
    parse_ta612c_frames f =
      ([(specChannel ((f.drop 4).dropLast) 0, specChannel ((f.drop 4).dropLast) 1,
         specChannel ((f.drop 4).dropLast) 2, specChannel ((f.drop 4).dropLast) 3)], []) := by
  obtain ⟨hc, hck⟩ := hwf
  have h0 : parseLoop (f ++ []) [] = parseLoop [] ([] ++ emittedBy f) :=
    parseLoop_candidate f [] [] hc
  rw [List.append_nil] at h0
  rw [parse_ta612c_frames, h0, parseLoop_incomplete_tail [] _ (Or.inl (by simp)),
    List.nil_append, emittedBy, if_pos ⟨hck, hcmd, hpl⟩]
  simp only [extractReading, channelVal_eq_specChannel]

/-- C3 witness: the frame carrying raw values 100, -50, 3000, -4000. -/
theorem claim_C3_witness :
    IsWellFormedFrame [0x55, 0xAA, 0x01, 0x0A, 100, 0, 206, 255, 184, 11, 96, 240, 78] ∧
    parse_ta612c_frames [0x55, 0xAA, 0x01, 0x0A, 100, 0, 206, 255, 184, 11, 96, 240, 78] =
      ([(specChannel [100, 0, 206, 255, 184, 11, 96, 240] 0,
         specChannel [100, 0, 206, 255, 184, 11, 96, 240] 1,
         specChannel [100, 0, 206, 255, 184, 11, 96, 240] 2,
         specChannel [100, 0, 206, 255, 184, 11, 96, 240] 3)], []) :=
  ⟨by decide, claim_C3 _ (by decide) (by decide) (by decide)⟩

/-- C4: a candidate frame (sync-prefixed slice whose length byte matches the
sliced size) with an invalid checksum contributes nothing: the decode of the
candidate followed by any bytes `s` equals the decode of `s` alone — no
reading from the candidate, exactly the sliced candidate consumed, any
well-formed frames inside `s` decoded as usual, and no error raised. -/
theorem claim_C4 (c : List Nat) (hc : IsCandidateFrame c)
    (hbad : c.dropLast.sum % 256 ≠ c.getLastD 0) (s : List Nat) :
    parse_ta612c_frames (c ++ s) = parse_ta612c_frames s := by
  rw [parse_ta612c_frames, parse_ta612c_frames, parseLoop_candidate c s [] hc, emittedBy,
    if_neg (by tauto)]
  rfl

/-- C4 witness: a corrupted-checksum candidate (true checksum 0x0B, stored
0x0C) followed by a well-formed command-0x01 frame. -/
theorem claim_C4_witness :
    IsCandidateFrame [0x55, 0xAA, 0x02, 0x03, 0x07, 0x0C] ∧
    [0x55, 0xAA, 0x02, 0x03, 0x07].sum % 256 ≠ 0x0C ∧
    parse_ta612c_frames ([0x55, 0xAA, 0x02, 0x03, 0x07, 0x0C] ++
        [0x55, 0xAA, 0x01, 0x0A, 100, 0, 206, 255, 184, 11, 96, 240, 78]) =
      parse_ta612c_frames [0x55, 0xAA, 0x01, 0x0A, 100, 0, 206, 255, 184, 11, 96, 240, 78] :=
  ⟨by decide, by decide, claim_C4 _ (by decide) (by decide) _⟩

/-- C5 (amended): splitting a well-formed frame into two chunks with a
non-empty second chunk, the first call yields no reading and keeps the whole
first chunk as remainder; the second call, on the returned remainder plus the
second chunk, gives exactly the same result as decoding the whole frame in
one call; for command-0x01 frames with at least 8 payload bytes that common
result is exactly one reading. -/
theorem claim_C5 (f c1 c2 : List Nat) (hwf : IsWellFormedFrame f) (heq : f = c1 ++ c2)
    (hne : c2 ≠ []) :
    parse_ta612c_frames c1 = ([], c1) ∧
    parse_ta612c_frames ((parse_ta612c_frames c1).2 ++ c2) = parse_ta612c_frames f ∧
    (f.getD 2 0 = 0x01 → 8 ≤ ((f.drop 4).dropLast).length →
      parse_ta612c_frames f = ([extractReading ((f.drop 4).dropLast)], [])) := by
  have hfront := parse_front_chunk f c1 c2 hwf heq hne
  refine ⟨hfront, ?_, ?_⟩
  · rw [hfront]
    show parse_ta612c_frames (c1 ++ c2) = parse_ta612c_frames f
    rw [← heq]
  · intro hcmd hpl
    obtain ⟨hc, hck⟩ := hwf
    have h0 : parseLoop (f ++ []) [] = parseLoop [] ([] ++ emittedBy f) :=
      parseLoop_candidate f [] [] hc
    rw [List.append_nil] at h0
    rw [parse_ta612c_frames, h0, parseLoop_incomplete_tail [] _ (Or.inl (by simp)),
      List.nil_append, emittedBy, if_pos ⟨hck, hcmd, hpl⟩]

/-- C5 counterexample to the claim as stated: the well-formed (command 0x02)
frame `[0x55, 0xAA, 0x02, 0x03, 0x07, 0x0B]` split after 3 bytes gives no
frame on the first call, but the second call on remainder + second chunk
yields ZERO readings, not "exactly one frame" as the claim requires. -/
theorem claim_C5_counterexample :
    IsWellFormedFrame [0x55, 0xAA, 0x02, 0x03, 0x07, 0x0B] ∧
    parse_ta612c_frames [0x55, 0xAA, 0x02] = ([], [0x55, 0xAA, 0x02]) ∧
    parse_ta612c_frames ([0x55, 0xAA, 0x02] ++ [0x03, 0x07, 0x0B]) = ([], []) :=
  ⟨by decide, parse_eval _ _ (by decide), parse_eval _ _ (by decide)⟩

/-- C5 witness: the command-0x01 frame of `claim_C3_witness` split after
6 bytes. -/
theorem claim_C5_witness :
    parse_ta612c_frames [0x55, 0xAA, 0x01, 0x0A, 100, 0] =
      ([], [0x55, 0xAA, 0x01, 0x0A, 100, 0]) ∧
    parse_ta612c_frames ((parse_ta612c_frames [0x55, 0xAA, 0x01, 0x0A, 100, 0]).2 ++
        [206, 255, 184, 11, 96, 240, 78]) =
      parse_ta612c_frames [0x55, 0xAA, 0x01, 0x0A, 100, 0, 206, 255, 184, 11, 96, 240, 78] ∧
    ([0x55, 0xAA, 0x01, 0x0A, 100, 0, 206, 255, 184, 11, 96, 240, 78].getD 2 0 = 0x01 →
      8 ≤ (([0x55, 0xAA, 0x01, 0x0A, 100, 0, 206, 255, 184, 11, 96, 240, 78].drop 4).dropLast).length →
      parse_ta612c_frames [0x55, 0xAA, 0x01, 0x0A, 100, 0, 206, 255, 184, 11, 96, 240, 78] =
        ([extractReading (([0x55, 0xAA, 0x01, 0x0A, 100, 0, 206, 255, 184, 11, 96, 240, 78].drop 4).dropLast)], [])) :=
  claim_C5 _ _ _ (by decide) (by decide) (by decide)

/-- C6: a buffer in which the sync marker 0x55 0xAA occurs at no position
decodes to no readings, and the remainder is the final byte of the buffer
(the whole buffer when it has at most one byte). -/
theorem claim_C6 (buf : List Nat)
    (h : ∀ i, i + 1 < buf.length → ¬(buf.getD i 0 = 0x55 ∧ buf.getD (i + 1) 0 = 0xAA)) :
    parse_ta612c_frames buf = ([], buf.drop (buf.length - 1)) := by
  rw [parse_ta612c_frames, parseLoop_none _ _ (findSync_of_no_sync buf h)]
  by_cases h1 : 1 < buf.length
  · rw [if_pos h1]
  · rw [if_neg h1]
    have h0 : buf.length - 1 = 0 := by omega
    rw [h0]
    rfl

/-- C6 witness: a three-byte sync-free buffer keeps exactly its last byte. -/
theorem claim_C6_witness : parse_ta612c_frames [1, 2, 3] = ([], [3]) :=
  claim_C6 [1, 2, 3] (by
    intro i hi
    have hi3 : i < 2 := by simp at hi; omega
    interval_cases i <;> decide)

/-- C7 (amended): in the socket-to-serial pump, a non-empty binary message is
written verbatim; a textual message all of whose characters are ASCII (code
point below 128) is written encoded one byte per character; a textual message
containing any non-ASCII character raises `UnicodeEncodeError` instead of
being written; an empty binary message is ignored (nothing written). -/
theorem claim_C7 :
    (∀ b : List Nat, b ≠ [] → ws_to_serial_step (WSMessage.bin b) = SerialEffect.write b) ∧
    (∀ s : String, (∀ c ∈ s.data, c.toNat < 128) →
      ws_to_serial_step (WSMessage.text s) = SerialEffect.write (s.data.map Char.toNat)) ∧
    (∀ s : String, ¬(∀ c ∈ s.data, c.toNat < 128) →
      ws_to_serial_step (WSMessage.text s) = SerialEffect.raised) ∧
    ws_to_serial_step (WSMessage.bin []) = SerialEffect.ignored := by
  refine ⟨fun b hb => ?_, fun s hs => ?_, fun s hs => ?_, rfl⟩
  · simp [ws_to_serial_step, hb]
  · simp only [ws_to_serial_step, encodeAscii, List.all_eq_true, decide_eq_true_eq]
    rw [if_pos hs]
  · simp only [ws_to_serial_step, encodeAscii, List.all_eq_true, decide_eq_true_eq]
    rw [if_neg hs]

/-- C7 counterexample to the claim as stated: the textual message "é" is not
encoded-and-written with one byte per character — `"é".encode("ascii")`
raises `UnicodeEncodeError` (code point 233 ≥ 128), so nothing is written. -/
theorem claim_C7_counterexample :
    ws_to_serial_step (WSMessage.text "é") = SerialEffect.raised ∧
    SerialEffect.raised ≠ SerialEffect.write ("é".data.map Char.toNat) := by
  constructor
  · simp [ws_to_serial_step, encodeAscii]
  · decide

/-- C7 witness: a concrete non-empty binary message and a concrete all-ASCII
textual message. -/
theorem claim_C7_witness :
    ws_to_serial_step (WSMessage.bin [0xAA, 0x55, 0x01, 0x00]) =
      SerialEffect.write [0xAA, 0x55, 0x01, 0x00] ∧
    ws_to_serial_step (WSMessage.text "ok") = SerialEffect.write [111, 107] :=
  ⟨claim_C7.1 _ (by decide), claim_C7.2.1 "ok" (by decide)⟩

/-- C9: for every input buffer, the remainder returned by
`parse_ta612c_frames` is a contiguous suffix of the input; it has length at
most 1, or begins with the sync marker 0x55 0xAA while being shorter than
the complete frame its header declares (shorter than 4 bytes, or shorter
than `2 + 1 + length_byte`); consequently re-decoding the remainder yields
no reading and returns it unchanged — it contains no decodable frame. -/
theorem claim_C9 (buf : List Nat) :
    (parse_ta612c_frames buf).2 <:+ buf ∧
    IncompleteTail (parse_ta612c_frames buf).2 ∧
    parse_ta612c_frames ((parse_ta612c_frames buf).2) = ([], (parse_ta612c_frames buf).2) := by
  obtain ⟨h1, h2⟩ := parseLoop_tail_invariant buf.length buf [] le_rfl
  exact ⟨h1, h2, parseLoop_incomplete_tail _ _ h2⟩

/-- C10: `parse_ta612c_frames` is total — on every finite buffer the checked
rendition of the loop, whose fuel `buf.length / 3 + 1` bounds the number of
iterations (each non-exiting iteration consumes a sliced frame of
`2 + 1 + length_byte ≥ 3` bytes) and which returns `none` on any unguarded
byte access, terminates with `some` of the value of the unchecked loop: the
function terminates and no byte access ever fails. -/
theorem claim_C10 (buf : List Nat) :
    parse_ta612c_framesC buf = some (parse_ta612c_frames buf) :=
  parseLoopC_eq (buf.length / 3 + 1) buf [] (Nat.lt_succ_self _)
